import Mathlib

/-!
Shallow embedding of the emotion-analysis pipeline
(`src/app/preprocessing.py`, `src/app/linguistics.py`,
`src/app/emotion_model.py`, `src/app/scenarios.py`, `src/app/models.py`,
`src/app/main.py`).

Text is modelled as `List Char`.  Python string operations (`str.lower`,
`str.strip`, `re.sub(r"\s+", " ", ...)`, substring containment `in`,
`str.isalpha` / `str.isupper` per character) are modelled character-wise
over a faithful subset of Unicode: ASCII letters, Cyrillic letters
(А-Я/а-я and Ё/ё, the alphabet of the repository's keyword lexicons), the
ASCII whitespace characters matched by Python's `\s` and `str.strip`, and
U+2102 ℂ (DOUBLE-STRUCK CAPITAL C), an uppercase alphabetic character
that Unicode assigns no simple lowercase mapping, so Python's `lower()`
leaves it unchanged while `isupper()` stays true.  Floating-point scores
and ratios are modelled as rationals; Python's banker's rounding
(`round`, round-half-to-even) is modelled exactly on rationals.
-/

namespace EmoApp

/-- Python `str.lower` simple case mappings for the modelled alphabet:
ASCII `A`-`Z` and Cyrillic `А`-`Я`, `Ё` (per the Unicode simple lowercase
mappings Python applies).  Characters absent from the table (including
U+2102 ℂ, which has no Unicode lowercase mapping) are left unchanged,
exactly as Python leaves them. -/
def lowerTable : List (Char × Char) :=
  [('A', 'a'), ('B', 'b'), ('C', 'c'), ('D', 'd'), ('E', 'e'), ('F', 'f'),
   ('G', 'g'), ('H', 'h'), ('I', 'i'), ('J', 'j'), ('K', 'k'), ('L', 'l'),
   ('M', 'm'), ('N', 'n'), ('O', 'o'), ('P', 'p'), ('Q', 'q'), ('R', 'r'),
   ('S', 's'), ('T', 't'), ('U', 'u'), ('V', 'v'), ('W', 'w'), ('X', 'x'),
   ('Y', 'y'), ('Z', 'z'),
   ('А', 'а'), ('Б', 'б'), ('В', 'в'), ('Г', 'г'), ('Д', 'д'), ('Е', 'е'),
   ('Ж', 'ж'), ('З', 'з'), ('И', 'и'), ('Й', 'й'), ('К', 'к'), ('Л', 'л'),
   ('М', 'м'), ('Н', 'н'), ('О', 'о'), ('П', 'п'), ('Р', 'р'), ('С', 'с'),
   ('Т', 'т'), ('У', 'у'), ('Ф', 'ф'), ('Х', 'х'), ('Ц', 'ц'), ('Ч', 'ч'),
   ('Ш', 'ш'), ('Щ', 'щ'), ('Ъ', 'ъ'), ('Ы', 'ы'), ('Ь', 'ь'), ('Э', 'э'),
   ('Ю', 'ю'), ('Я', 'я'), ('Ё', 'ё')]

/-- Per-character model of Python `str.lower`. -/
def pyToLower (c : Char) : Char := (lowerTable.lookup c).getD c

/-- Python `str.lower` over a whole string. -/
def pyLower (l : List Char) : List Char := l.map pyToLower

/-- The whitespace characters recognised by Python's `str.strip` and by
`\s` in `re` (ASCII portion). -/
def spaceChars : List Char := [' ', '\t', '\n', '\r', '\x0b', '\x0c']

/-- Per-character model of Python whitespace (`str.isspace` / regex `\s`). -/
def pyIsSpace (c : Char) : Bool := spaceChars.contains c

/-- Uppercase alphabetic characters with no simple lowercase mapping in
Unicode (so Python's `lower()` fixes them and `isupper()` remains true);
the modelled representative is U+2102 ℂ. -/
def upperNoLower : List Char := ['ℂ']

/-- Per-character model of Python `str.isupper` on the modelled alphabet. -/
def pyIsUpper (c : Char) : Bool :=
  (lowerTable.map Prod.fst).contains c || upperNoLower.contains c

/-- Per-character model of Python `str.isalpha` on the modelled alphabet. -/
def pyIsAlpha (c : Char) : Bool :=
  pyIsUpper c || (lowerTable.map Prod.snd).contains c

/-- `TextPreprocessor`: `text.strip()` — drop whitespace from both ends. -/
def strip (l : List Char) : List Char :=
  (((l.dropWhile pyIsSpace).reverse.dropWhile pyIsSpace)).reverse

/-- `TextPreprocessor`: `re.sub(r"\s+", " ", text)` — replace every maximal
run of whitespace by a single space.  Stated as a right-to-left recursion:
a whitespace character emits `' '` unless the collapsed tail already
starts with the `' '` emitted for the rest of the same run; the head of
`collapseWS l` is `' '` exactly when the head of `l` is whitespace, so
each maximal whitespace run yields exactly one `' '`, as `re.sub` does. -/
def collapseWS : List Char → List Char
  | [] => []
  | c :: cs =>
    if pyIsSpace c then
      if (collapseWS cs).head? = some ' ' then collapseWS cs
      else ' ' :: collapseWS cs
    else c :: collapseWS cs

/-- `TextPreprocessor.normalize_text`: empty guard, then strip, then
collapse whitespace runs. -/
def normalize_text (l : List Char) : List Char :=
  if l = [] then [] else collapseWS (strip l)

/-- `TextPreprocessor.to_lower`. -/
def to_lower (l : List Char) : List Char := pyLower l

/-- `TextPreprocessor.preprocess`: normalize, then lowercase. -/
def preprocess (raw : List Char) : List Char := to_lower (normalize_text raw)

/-! ## Feature extraction (`src/app/linguistics.py`) -/

/-- Python's `round` on a rational: round half to even (banker's rounding).
Python rounds binary floats; on the rationals the pipeline produces, the
only difference can be at exact ties, which no verified claim depends on. -/
def pyRound (q : ℚ) : ℤ :=
  let f := ⌊q⌋
  let r := q - (f : ℚ)
  if r < 1 / 2 then f
  else if 1 / 2 < r then f + 1
  else if f % 2 = 0 then f else f + 1

/-- Python `round(x, 3)`: round to three decimal places, half to even. -/
def pyRound3 (q : ℚ) : ℚ := (pyRound (1000 * q) : ℚ) / 1000

/-- `d` may close an emoticon: one of `( ) D P`. -/
def emoEnd (d : Char) : Bool := d = '(' || d = ')' || d = 'D' || d = 'P'

/-- `c` may open an emoticon: `:` or `;`. -/
def emoStart (c : Char) : Bool := c = ':' || c = ';'

/-- `len(re.findall(r"[:;]-?[()DP]", text))`: count non-overlapping
left-to-right matches of an emoticon opener, an optional `-`, and a
closer. -/
def countEmoticons : List Char → Nat
  | [] => 0
  | [_] => 0
  | c :: '-' :: d :: rest2 =>
    if emoStart c && emoEnd d then 1 + countEmoticons rest2
    else countEmoticons ('-' :: d :: rest2)
  | c :: d :: rest2 =>
    if emoStart c && emoEnd d then 1 + countEmoticons rest2
    else countEmoticons (d :: rest2)
termination_by l => l.length
decreasing_by
  all_goals simp [List.length_cons]
  all_goals omega

/-- The feature record returned by `LinguisticAnalyzer.extract_features`. -/
structure AnalysisFeatures where
  length : Nat
  exclamations : Nat
  questions : Nat
  caps_ratio : ℚ
  emoticons : Nat
deriving Repr, DecidableEq

/-- `LinguisticAnalyzer.extract_features`. -/
def extract_features (text : List Char) : AnalysisFeatures :=
  let caps := text.countP (fun ch => pyIsAlpha ch && pyIsUpper ch)
  let letters := text.countP (fun ch => pyIsAlpha ch)
  let ratio : ℚ := if letters > 0 then (caps : ℚ) / (letters : ℚ) else 0
  { length := text.length
    exclamations := text.countP (fun ch => ch = '!')
    questions := text.countP (fun ch => ch = '?')
    caps_ratio := pyRound3 ratio
    emoticons := countEmoticons text }

/-! ## Emotion model (`src/app/emotion_model.py`) -/

/-- The fixed English→Russian translation table `EMOTION_RU`. -/
def EMOTION_RU : List (String × String) :=
  [("admiration", "восхищение"), ("amusement", "веселье"),
   ("anger", "злость"), ("annoyance", "раздражение"),
   ("approval", "одобрение"), ("caring", "забота"),
   ("confusion", "непонимание"), ("curiosity", "любопытство"),
   ("desire", "желание"), ("disappointment", "разочарование"),
   ("disapproval", "неодобрение"), ("disgust", "отвращение"),
   ("embarrassment", "смущение"), ("excitement", "возбуждение"),
   ("fear", "страх"), ("gratitude", "признательность"),
   ("grief", "горе"), ("joy", "радость"), ("love", "любовь"),
   ("nervousness", "нервозность"), ("optimism", "оптимизм"),
   ("pride", "гордость"), ("realization", "осознание"),
   ("relief", "облегчение"), ("remorse", "раскаяние"),
   ("sadness", "грусть"), ("surprise", "удивление"),
   ("neutral", "нейтральность")]

/-- `EmotionModelService.map_score_to_intensity`: bucket a confidence
score into an intensity label. -/
def map_score_to_intensity (score : ℚ) : String :=
  if score ≥ 1 / 2 then "высокая"
  else if score ≥ 3 / 10 then "средняя"
  else "низкая"

/-- `EmotionModelService.to_ru`: `EMOTION_RU.get(label, label)`. -/
def to_ru (label : String) : String := (EMOTION_RU.lookup label).getD label

/-! ## Scenario engine (`src/app/scenarios.py`) -/

/-- Python substring containment `w in t` for `w` over the characters of
`t`. -/
def occursIn (w : List Char) : List Char → Bool
  | [] => w.isEmpty
  | c :: rest => w.isPrefixOf (c :: rest) || occursIn w rest

/-- `ScenarioEngine.bad_words`: the insult keyword set. -/
def bad_words : List (List Char) :=
  (["дурак", "дура", "идиот", "идиотка", "глупый", "глупая", "тупой",
    "тупая", "некомпетентный", "бездарный", "бездарная", "бестолковый",
    "бестолковая", "плохой специалист", "ужасный сервис",
    "отвратительный сервис"] : List String).map String.toList

/-- `ScenarioEngine.negative_tone_words`. -/
def negative_tone_words : List (List Char) :=
  (["грустно", "печально", "грусть", "одиночество", "одиноко", "страшно",
    "страх", "ужасно", "отвратительно", "плохо", "хуже", "ужасный",
    "отвратительный", "устал", "устала", "утомил", "утомила", "надоел",
    "надоела", "надоели", "раздражает", "раздражение", "осадок",
    "неприятное чувство", "разочарование", "разочарован", "разочарована",
    "ненавижу", "ненависть", "боюсь", "тревога", "тревожно"] :
    List String).map String.toList

/-- `ScenarioEngine.positive_tone_words`. -/
def positive_tone_words : List (List Char) :=
  (["рад", "рада", "счастлив", "счастлива", "доволен", "довольна",
    "замечательный", "замечательная", "отличный", "отличная", "отлично",
    "прекрасный", "прекрасная", "лучший", "теплый день", "хорошая погода",
    "подарок", "успех", "повышение", "похвала", "благодарен", "благодарна",
    "люблю", "нравится", "спасибо", "большое спасибо", "огромное спасибо",
    "выручили"] : List String).map String.toList

/-- `ScenarioEngine.positive_labels` (polarity voting). -/
def positive_labels : List String := ["joy", "admiration", "JOY", "HAPPINESS"]

/-- `ScenarioEngine.negative_labels` (polarity voting). -/
def negative_labels : List String :=
  ["anger", "sadness", "fear", "disgust", "annoyance", "disappointment",
   "grief", "ANGER", "SADNESS", "FEAR", "DISGUST"]

/-- `any(bad in lowered for bad in self.bad_words)`. -/
def hasBadWords (lowered : List Char) : Bool :=
  bad_words.any (fun w => occursIn w lowered)

/-- The local `negative_emotions` set of `support_scenario`. -/
def support_negative_emotions : List String :=
  ["anger", "sadness", "fear", "disgust", "annoyance", "disappointment",
   "grief", "remorse", "nervousness", "ANGER", "SADNESS", "FEAR", "DISGUST"]

/-- The local `positive_emotions` set of `support_scenario`. -/
def support_positive_emotions : List String :=
  ["joy", "admiration", "JOY", "HAPPINESS", "gratitude", "love", "optimism"]

/-- `ScenarioEngine.support_scenario`.  The Python function is annotated
`-> str` but its `if`-chain has no `else`: when no branch matches (e.g.
label `"neutral"` with no insult keyword) it falls off the end and
returns `None`, modelled here as `none`. -/
def support_scenario (emotion_label intensity : String) (text : List Char) :
    Option String :=
  let lowered := pyLower text
  if hasBadWords lowered then
    some ("Критичное обращение: клиент использует оскорбления. " ++
      "Рекомендуется максимально вежливый ответ и при необходимости эскалация на старшего специалиста.")
  else if support_negative_emotions.contains emotion_label &&
      (intensity == "средняя" || intensity == "высокая") then
    some "Негативное обращение высокой важности: ответ с сочувствием, уточняющими вопросами и предложением решения."
  else if support_negative_emotions.contains emotion_label then
    some "Негативное обращение: стоит ответить с сочувствием и предложить возможные варианты решения."
  else if support_positive_emotions.contains emotion_label then
    some "Положительное обращение: можно усилить позитивное впечатление и поблагодарить клиента."
  else none

/-- The local `toxic_emotions` set of `moderator_scenario`. -/
def toxic_emotions : List String :=
  ["ANGER", "DISGUST", "IRRITATION", "ANGER/hostility", "anger"]

/-- `ScenarioEngine.moderator_scenario`. -/
def moderator_scenario (emotion_label intensity : String) (text : List Char) :
    String :=
  let lowered := pyLower text
  if hasBadWords lowered then
    "Сообщение содержит оскорбления/ненормативную лексику: скрыть из чата и отправить модератору."
  else if toxic_emotions.contains emotion_label &&
      (intensity == "средняя" || intensity == "высокая") then
    "Сообщение потенциально токсично: скрыть из чата и отправить на проверку модератору."
  else if toxic_emotions.contains emotion_label then
    "Сообщение может содержать негатив: отметить для выборочной проверки."
  else "Сообщение допустимо: оставить в чате."

/-- `ScenarioEngine.marketer_scenario`, on the two percentages of the
polarity distribution. -/
def marketer_scenario (positive negative : ℤ) : String :=
  if positive ≥ 60 && negative ≤ 20 then
    "Преобладают положительные эмоции: отклик аудитории в целом позитивный."
  else if negative ≥ 60 && positive ≤ 20 then
    "Преобладают негативные эмоции: стоит подробнее изучить причины недовольства."
  else "Эмоциональный фон смешанный: нужны дополнительные исследования и сегментация отзывов."

/-- The `(pos_votes, neg_votes)` pair computed inside
`ScenarioEngine.polarity_with_lexicon`: label vote (3, positive set first
via `elif`), plus 2 per distinct positive-tone keyword occurring in the
lowercased text and 1 per distinct negative-tone keyword. -/
def polarityVotes (label : String) (text : List Char) : Nat × Nat :=
  let lowered := pyLower text
  let labelPos := positive_labels.contains label
  let labelNeg := negative_labels.contains label
  let pos_hits := positive_tone_words.countP (fun w => occursIn w lowered)
  let neg_hits := negative_tone_words.countP (fun w => occursIn w lowered)
  ((if labelPos then 3 else 0) + 2 * pos_hits,
   (if !labelPos && labelNeg then 3 else 0) + 1 * neg_hits)

/-- `ScenarioEngine.polarity_with_lexicon`: `(positive, negative)`
percentage pair. -/
def polarity_with_lexicon (label : String) (text : List Char) : ℤ × ℤ :=
  let votes := polarityVotes label text
  let total := votes.1 + votes.2
  if total = 0 then (0, 0)
  else
    let pos_share := pyRound ((votes.1 : ℚ) / (total : ℚ) * 100)
    (pos_share, 100 - pos_share)

/-- The dict returned by `ScenarioEngine.build_scenarios_single`; the
`for_support` entry may be Python `None` (see `support_scenario`). -/
structure ScenarioDict where
  for_support : Option String
  for_moderator : String
  for_marketer : String
deriving Repr, DecidableEq

/-- `ScenarioEngine.build_scenarios_single`. -/
def build_scenarios_single (emotion_label intensity : String)
    (text : List Char) : ScenarioDict :=
  let polarity := polarity_with_lexicon emotion_label text
  { for_support := support_scenario emotion_label intensity text
    for_moderator := moderator_scenario emotion_label intensity text
    for_marketer := marketer_scenario polarity.1 polarity.2 }

/-! ## History store (`src/app/models.py`, `HistoryRepository`) -/

namespace HistoryRepository

/-- `HistoryRepository.add`: `self._items.insert(0, item)` then, if the
length exceeds `max_size`, `self._items.pop()` (drop the last element).
The stored item list is passed explicitly; entries are an arbitrary
type. -/
def add {α : Type} (max_size : Nat) (item : α) (items : List α) : List α :=
  let items' := item :: items
  if items'.length > max_size then items'.dropLast else items'

/-- Perform a sequence of `add` operations, oldest first. -/
def addAll {α : Type} (max_size : Nat) (entries : List α) (items : List α) :
    List α :=
  entries.foldl (fun s x => add max_size x s) items

/-- `HistoryRepository.list`: a snapshot copy of the item list. -/
def listItems {α : Type} (items : List α) : List α := items

/-- `HistoryRepository.size`. -/
def size {α : Type} (items : List α) : Nat := items.length

end HistoryRepository

/-! ## Orchestrator (`src/app/main.py`, `EmotionAnalysisService`) and the
pydantic result models (`src/app/models.py`). -/

/-- Pydantic `EmotionResult`. -/
structure EmotionResult where
  label : String
  score : ℚ
  intensity : String
deriving Repr, DecidableEq

/-- Pydantic `ScenarioResult`: all three fields are declared `str`, so
pydantic rejects `None` with a `ValidationError` at construction. -/
structure ScenarioResult where
  for_support : String
  for_moderator : String
  for_marketer : String
deriving Repr, DecidableEq

/-- Pydantic `AnalyzeResponse`. -/
structure AnalyzeResponse where
  cleaned_text : List Char
  features : AnalysisFeatures
  emotion : EmotionResult
  scenarios : ScenarioResult
deriving Repr, DecidableEq

/-- `EmotionAnalysisService.analyze_text`, with the external classifier's
output `(label, score)` passed as parameters (the classifier is an
external collaborator; `analyze_text` uses its result only through
`label` and `score`).  Returns `none` exactly when building the pydantic
`ScenarioResult` raises: `support_scenario` produced Python `None` for a
field declared `str`.  Every other step is a total function. -/
def analyze_text (raw_text : List Char) (label : String) (score : ℚ) :
    Option AnalyzeResponse :=
  let cleaned := preprocess raw_text
  let features := extract_features cleaned
  let label_ru := to_ru label
  let intensity := map_score_to_intensity score
  let scenario_dict := build_scenarios_single label intensity cleaned
  match scenario_dict.for_support with
  | none => none
  | some sup =>
    some { cleaned_text := cleaned
           features := features
           emotion := { label := label_ru, score := score, intensity := intensity }
           scenarios := { for_support := sup
                          for_moderator := scenario_dict.for_moderator
                          for_marketer := scenario_dict.for_marketer } }

/-! ## Helper lemmas -/

/-- A successful association-list lookup locates a pair of the list. -/
theorem mem_of_lookup_eq_some {α β : Type} [BEq α] [LawfulBEq α]
    {l : List (α × β)} {a : α} {b : β} (h : l.lookup a = some b) :
    (a, b) ∈ l := by
  induction l with
  | nil => simp [List.lookup] at h
  | cons p t ih =>
    rw [List.lookup] at h
    by_cases hk : (a == p.1) = true
    · rw [hk] at h
      have hb : p.2 = b := Option.some.inj h
      have ha : a = p.1 := by simpa using hk
      have hp : (a, b) = p := by rw [ha, ← hb]
      rw [hp]
      exact List.mem_cons_self p t
    · have hk' : (a == p.1) = false := by simpa using hk
      rw [hk'] at h
      exact List.mem_cons_of_mem _ (ih h)

/-- Every value of `lowerTable` is outside its key set. -/
theorem lowerTable_lookup_snd :
    ∀ d ∈ lowerTable.map Prod.snd, lowerTable.lookup d = none := by decide

/-- Keys and values of `lowerTable` are not whitespace. -/
theorem lowerTable_not_space :
    ∀ p ∈ lowerTable, pyIsSpace p.1 = false ∧ pyIsSpace p.2 = false := by decide

/-- Keys and values of `lowerTable` are not the space character. -/
theorem lowerTable_ne_space :
    ∀ p ∈ lowerTable, p.1 ≠ ' ' ∧ p.2 ≠ ' ' := by decide

/-- Lowercasing a character twice is the same as doing it once. -/
theorem pyToLower_idem (c : Char) : pyToLower (pyToLower c) = pyToLower c := by
  rcases h : lowerTable.lookup c with _ | d
  · simp [pyToLower, h]
  · have hm := mem_of_lookup_eq_some h
    have hv : d ∈ lowerTable.map Prod.snd := by
      exact List.mem_map_of_mem Prod.snd hm
    have hn := lowerTable_lookup_snd d hv
    simp [pyToLower, h, hn]

/-- Lowercasing does not change whether a character is whitespace. -/
theorem pyIsSpace_pyToLower (c : Char) :
    pyIsSpace (pyToLower c) = pyIsSpace c := by
  rcases h : lowerTable.lookup c with _ | d
  · simp [pyToLower, h]
  · have hm := mem_of_lookup_eq_some h
    have := lowerTable_not_space _ hm
    simp [pyToLower, h, this.1, this.2]

/-- Lowercasing a character yields `' '` exactly for `' '` itself. -/
theorem pyToLower_eq_space_iff (c : Char) : pyToLower c = ' ' ↔ c = ' ' := by
  rcases h : lowerTable.lookup c with _ | d
  · simp [pyToLower, h]
  · have hm := mem_of_lookup_eq_some h
    have := lowerTable_ne_space _ hm
    simp [pyToLower, h, this.1, this.2]

/-- The head of a `dropWhile` result does not satisfy the predicate. -/
theorem head_dropWhile_false (p : Char → Bool) :
    ∀ (l : List Char) (c : Char), (l.dropWhile p).head? = some c → p c = false := by
  intro l
  induction l with
  | nil => intro c hc; simp at hc
  | cons a t ih =>
    intro c hc
    rw [List.dropWhile_cons] at hc
    by_cases ha : p a = true
    · rw [if_pos ha] at hc
      exact ih c hc
    · rw [if_neg ha] at hc
      simp at hc
      rw [← hc]
      simpa using ha

/-- `dropWhile` is the identity when the head does not satisfy the
predicate. -/
theorem dropWhile_eq_self_of_head (p : Char → Bool) (l : List Char)
    (h : ∀ c, l.head? = some c → p c = false) : l.dropWhile p = l := by
  cases l with
  | nil => rfl
  | cons a t =>
    rw [List.dropWhile_cons, if_neg]
    simp [h a rfl]

/-- A nonempty `dropWhile` result keeps the last element. -/
theorem getLast?_dropWhile (p : Char → Bool) :
    ∀ l : List Char, l.dropWhile p ≠ [] → (l.dropWhile p).getLast? = l.getLast? := by
  intro l
  induction l with
  | nil => intro h; simp at h
  | cons a t ih =>
    intro h
    rw [List.dropWhile_cons] at h ⊢
    by_cases ha : p a = true
    · rw [if_pos ha] at h ⊢
      have ht : t ≠ [] := by
        intro he
        rw [he] at h
        simp at h
      rcases t with _ | ⟨b, t'⟩
      · exact absurd rfl ht
      · rw [ih h, List.getLast?_cons_cons]
    · rw [if_neg ha]

/-- `collapseWS` of a nonempty list is nonempty. -/
theorem collapseWS_ne_nil : ∀ l : List Char, l ≠ [] → collapseWS l ≠ [] := by
  intro l
  induction l with
  | nil => intro h; exact absurd rfl h
  | cons c cs ih =>
    intro _
    rw [collapseWS]
    by_cases hc : pyIsSpace c = true
    · rw [if_pos hc]
      by_cases hh : (collapseWS cs).head? = some ' '
      · rw [if_pos hh]
        intro he
        rw [he] at hh
        simp at hh
      · rw [if_neg hh]
        simp
    · rw [if_neg hc]
      simp

/-- `collapseWS` on a list starting with a non-whitespace character. -/
theorem collapseWS_cons_not_space (c : Char) (cs : List Char)
    (hc : pyIsSpace c = false) : collapseWS (c :: cs) = c :: collapseWS cs := by
  rw [collapseWS, if_neg (by simp [hc])]

/-- Collapsing whitespace runs twice is the same as doing it once. -/
theorem collapseWS_idem : ∀ l : List Char, collapseWS (collapseWS l) = collapseWS l := by
  intro l
  induction l with
  | nil => rfl
  | cons c cs ih =>
    by_cases hc : pyIsSpace c = true
    · by_cases hh : (collapseWS cs).head? = some ' '
      · rw [collapseWS, if_pos hc, if_pos hh, ih]
      · rw [collapseWS, if_pos hc, if_neg hh]
        rw [collapseWS, if_pos (by decide), ih, if_neg hh]
    · rw [collapseWS_cons_not_space c cs (by simpa using hc)]
      rw [collapseWS_cons_not_space c _ (by simpa using hc), ih]

/-- `getLast?` ignores the head of a list with a nonempty tail. -/
theorem getLast?_cons_of_ne_nil {α : Type} (a : α) (cs : List α) (h : cs ≠ []) :
    (a :: cs).getLast? = cs.getLast? := by
  rcases cs with _ | ⟨b, t⟩
  · exact absurd rfl h
  · exact List.getLast?_cons_cons

/-- `collapseWS` preserves "the last element is not whitespace". -/
theorem getLast?_collapseWS_not_space :
    ∀ l : List Char, (∀ c, l.getLast? = some c → pyIsSpace c = false) →
      ∀ c, (collapseWS l).getLast? = some c → pyIsSpace c = false := by
  intro l
  induction l with
  | nil => intro _ c hc; simp [collapseWS] at hc
  | cons a cs ih =>
    intro h c hc
    by_cases hcs : cs = []
    · rw [hcs] at h hc
      have ha : pyIsSpace a = false := h a rfl
      rw [collapseWS_cons_not_space a [] ha] at hc
      simp [collapseWS] at hc
      rw [← hc]
      exact ha
    · have hlast : (a :: cs).getLast? = cs.getLast? := getLast?_cons_of_ne_nil a cs hcs
      have h' : ∀ c, cs.getLast? = some c → pyIsSpace c = false := by
        intro c hc'
        exact h c (by rw [hlast]; exact hc')
      have hne : collapseWS cs ≠ [] := collapseWS_ne_nil cs hcs
      by_cases ha : pyIsSpace a = true
      · rw [collapseWS, if_pos ha] at hc
        by_cases hh : (collapseWS cs).head? = some ' '
        · rw [if_pos hh] at hc
          exact ih h' c hc
        · rw [if_neg hh, getLast?_cons_of_ne_nil ' ' _ hne] at hc
          exact ih h' c hc
      · rw [collapseWS_cons_not_space a cs (by simpa using ha),
          getLast?_cons_of_ne_nil a _ hne] at hc
        exact ih h' c hc

/-- The head of a stripped list is not whitespace. -/
theorem strip_head_not_space (l : List Char) :
    ∀ c, (strip l).head? = some c → pyIsSpace c = false := by
  intro c hc
  unfold strip at hc
  rw [List.head?_reverse] at hc
  set y := (l.dropWhile pyIsSpace).reverse with hy
  by_cases hnil : y.dropWhile pyIsSpace = []
  · rw [hnil] at hc
    simp at hc
  · rw [getLast?_dropWhile pyIsSpace y hnil] at hc
    rw [hy, List.getLast?_reverse] at hc
    exact head_dropWhile_false pyIsSpace l c hc

/-- The last element of a stripped list is not whitespace. -/
theorem strip_getLast_not_space (l : List Char) :
    ∀ c, (strip l).getLast? = some c → pyIsSpace c = false := by
  intro c hc
  unfold strip at hc
  rw [List.getLast?_reverse] at hc
  exact head_dropWhile_false pyIsSpace _ c hc

/-- `strip` is the identity when neither end is whitespace. -/
theorem strip_eq_self (l : List Char)
    (h1 : ∀ c, l.head? = some c → pyIsSpace c = false)
    (h2 : ∀ c, l.getLast? = some c → pyIsSpace c = false) : strip l = l := by
  unfold strip
  rw [dropWhile_eq_self_of_head pyIsSpace l h1]
  rw [dropWhile_eq_self_of_head pyIsSpace l.reverse]
  · exact List.reverse_reverse l
  · intro c hc
    rw [List.head?_reverse] at hc
    exact h2 c hc

/-- The head of a collapsed-and-stripped list is not whitespace. -/
theorem head_collapseWS_strip_not_space (l : List Char) :
    ∀ c, (collapseWS (strip l)).head? = some c → pyIsSpace c = false := by
  intro c hc
  rcases hs : strip l with _ | ⟨a, t⟩
  · rw [hs] at hc
    simp [collapseWS] at hc
  · have ha : pyIsSpace a = false := strip_head_not_space l a (by rw [hs]; rfl)
    rw [hs, collapseWS_cons_not_space a t ha] at hc
    simp at hc
    rw [← hc]
    exact ha

/-- `normalize_text` is idempotent. -/
theorem normalize_text_idem (l : List Char) :
    normalize_text (normalize_text l) = normalize_text l := by
  by_cases h : l = []
  · rw [h]
    rfl
  · have hl : normalize_text l = collapseWS (strip l) := by
      rw [normalize_text, if_neg h]
    rw [hl]
    by_cases ht : collapseWS (strip l) = []
    · rw [ht]
      rfl
    · rw [normalize_text, if_neg ht]
      rw [strip_eq_self _ (head_collapseWS_strip_not_space l)
        (getLast?_collapseWS_not_space _ (strip_getLast_not_space l))]
      exact collapseWS_idem _

/-- `dropWhile pyIsSpace` commutes with character lowercasing. -/
theorem dropWhile_space_map_pyToLower (l : List Char) :
    (l.map pyToLower).dropWhile pyIsSpace = (l.dropWhile pyIsSpace).map pyToLower := by
  rw [List.dropWhile_map]
  have : pyIsSpace ∘ pyToLower = pyIsSpace := by
    funext c
    exact pyIsSpace_pyToLower c
  rw [this]

/-- `strip` commutes with character lowercasing. -/
theorem strip_map_pyToLower (l : List Char) :
    strip (l.map pyToLower) = (strip l).map pyToLower := by
  unfold strip
  rw [dropWhile_space_map_pyToLower, ← List.map_reverse,
    dropWhile_space_map_pyToLower, ← List.map_reverse]

/-- `collapseWS` commutes with character lowercasing. -/
theorem collapseWS_map_pyToLower :
    ∀ l : List Char, collapseWS (l.map pyToLower) = (collapseWS l).map pyToLower := by
  intro l
  induction l with
  | nil => rfl
  | cons c cs ih =>
    have hcond : ((collapseWS (cs.map pyToLower)).head? = some ' ') ↔
        ((collapseWS cs).head? = some ' ') := by
      rw [ih, List.head?_map]
      rcases hh : (collapseWS cs).head? with _ | x
      · simp
      · simp [pyToLower_eq_space_iff]
    by_cases hc : pyIsSpace c = true
    · have hc' : pyIsSpace (pyToLower c) = true := by rw [pyIsSpace_pyToLower]; exact hc
      by_cases hh : (collapseWS cs).head? = some ' '
      · rw [List.map_cons, collapseWS, if_pos hc', if_pos (hcond.mpr hh)]
        rw [collapseWS, if_pos hc, if_pos hh]
        exact ih
      · rw [List.map_cons, collapseWS, if_pos hc',
          if_neg (fun hx => hh (hcond.mp hx))]
        rw [collapseWS, if_pos hc, if_neg hh]
        rw [List.map_cons, ih]
        congr 1
    · have hc' : pyIsSpace (pyToLower c) = false := by
        rw [pyIsSpace_pyToLower]
        simpa using hc
      rw [List.map_cons, collapseWS_cons_not_space _ _ hc',
        collapseWS_cons_not_space c cs (by simpa using hc), List.map_cons, ih]

/-- `normalize_text` commutes with character lowercasing. -/
theorem normalize_text_map_pyToLower (l : List Char) :
    normalize_text (l.map pyToLower) = (normalize_text l).map pyToLower := by
  by_cases h : l = []
  · rw [h]
    rfl
  · rw [normalize_text, normalize_text, if_neg h,
      if_neg (by simpa [List.map_eq_nil_iff] using h),
      strip_map_pyToLower, collapseWS_map_pyToLower]

/-- Every character of `collapseWS l` is a space or a character of `l`. -/
theorem mem_collapseWS :
    ∀ l : List Char, ∀ c ∈ collapseWS l, c = ' ' ∨ c ∈ l := by
  intro l
  induction l with
  | nil => intro c hc; simp [collapseWS] at hc
  | cons a cs ih =>
    intro c hc
    by_cases ha : pyIsSpace a = true
    · rw [collapseWS, if_pos ha] at hc
      by_cases hh : (collapseWS cs).head? = some ' '
      · rw [if_pos hh] at hc
        rcases ih c hc with h | h
        · exact Or.inl h
        · exact Or.inr (List.mem_cons_of_mem a h)
      · rw [if_neg hh] at hc
        rcases List.mem_cons.mp hc with h | h
        · exact Or.inl h
        · rcases ih c h with h' | h'
          · exact Or.inl h'
          · exact Or.inr (List.mem_cons_of_mem a h')
    · rw [collapseWS_cons_not_space a cs (by simpa using ha)] at hc
      rcases List.mem_cons.mp hc with h | h
      · exact Or.inr (by rw [h]; exact List.mem_cons_self a cs)
      · rcases ih c h with h' | h'
        · exact Or.inl h'
        · exact Or.inr (List.mem_cons_of_mem a h')

/-- Every character of `strip l` is a character of `l`. -/
theorem mem_strip (l : List Char) : ∀ c ∈ strip l, c ∈ l := by
  intro c hc
  unfold strip at hc
  rw [List.mem_reverse] at hc
  have hc2 := (List.dropWhile_sublist pyIsSpace).mem hc
  rw [List.mem_reverse] at hc2
  exact (List.dropWhile_sublist pyIsSpace).mem hc2

/-- Every character of `normalize_text l` is a space or a character of
`l`. -/
theorem mem_normalize_text (l : List Char) :
    ∀ c ∈ normalize_text l, c = ' ' ∨ c ∈ l := by
  intro c hc
  by_cases h : l = []
  · rw [h] at hc
    simp [normalize_text] at hc
  · rw [normalize_text, if_neg h] at hc
    rcases mem_collapseWS _ c hc with h' | h'
    · exact Or.inl h'
    · exact Or.inr (mem_strip l c h')

/-- Numeric rank of the three intensity strings, for stating
monotonicity. -/
def intensityRank (s : String) : Nat :=
  if s = "высокая" then 2 else if s = "средняя" then 1 else 0

/-- `intensityRank` of the mapped score, as a numeric threshold formula. -/
theorem intensityRank_map_score (s : ℚ) :
    intensityRank (map_score_to_intensity s) =
      if 1 / 2 ≤ s then 2 else if 3 / 10 ≤ s then 1 else 0 := by
  unfold map_score_to_intensity intensityRank
  by_cases h1 : (1 : ℚ) / 2 ≤ s
  · rw [if_pos h1, if_pos rfl, if_pos h1]
  · rw [if_neg h1, if_neg h1]
    by_cases h2 : (3 : ℚ) / 10 ≤ s
    · rw [if_pos h2, if_neg (by decide), if_pos rfl, if_pos h2]
    · rw [if_neg h2, if_neg (by decide), if_neg (by decide), if_neg h2]

/-! ## Claim theorems -/

/-- C8: normalization is idempotent: for every string `x`,
`preprocess (preprocess x) = preprocess x` (trim, collapse whitespace
runs, lowercase). -/
theorem preprocess_idem (x : List Char) :
    preprocess (preprocess x) = preprocess x := by
  unfold preprocess to_lower pyLower
  rw [normalize_text_map_pyToLower, normalize_text_idem, List.map_map]
  rw [show pyToLower ∘ pyToLower = pyToLower from funext pyToLower_idem]

/-- C7: translation is a total lookup in `EMOTION_RU`: labels present in
the table are translated to their table entry, labels absent from the
table are returned unchanged (in particular `"unknown_label_xyz"`), and
the function never fails. -/
theorem to_ru_total_fallback (label : String) :
    (∀ v : String, EMOTION_RU.lookup label = some v → to_ru label = v) ∧
    (EMOTION_RU.lookup label = none → to_ru label = label) ∧
    to_ru "unknown_label_xyz" = "unknown_label_xyz" := by
  refine ⟨fun v hv => ?_, fun hn => ?_, ?_⟩
  · rw [to_ru, hv]
    rfl
  · rw [to_ru, hn]
    rfl
  · decide

/-- Witness for C7 at the concrete labels `"anger"` and
`"unknown_label_xyz"`. -/
theorem to_ru_total_fallback_witness :
    to_ru "anger" = "злость" ∧ to_ru "unknown_label_xyz" = "unknown_label_xyz" :=
  ⟨(to_ru_total_fallback "anger").1 "злость" (by decide),
   (to_ru_total_fallback "anger").2.2⟩

/-- C6: for every confidence score in `[0,1]` the intensity is exactly one
of высокая/средняя/низкая, with высокая iff `score ≥ 1/2`, средняя iff
`3/10 ≤ score < 1/2`, низкая iff `score < 3/10`, and the mapping is
monotone non-decreasing in the score. -/
theorem map_score_to_intensity_partition (s : ℚ) (h0 : 0 ≤ s) (h1 : s ≤ 1) :
    (map_score_to_intensity s = "высокая" ∨ map_score_to_intensity s = "средняя" ∨
      map_score_to_intensity s = "низкая") ∧
    (map_score_to_intensity s = "высокая" ↔ 1 / 2 ≤ s) ∧
    (map_score_to_intensity s = "средняя" ↔ 3 / 10 ≤ s ∧ s < 1 / 2) ∧
    (map_score_to_intensity s = "низкая" ↔ s < 3 / 10) ∧
    ∀ t : ℚ, s ≤ t →
      intensityRank (map_score_to_intensity s) ≤
        intensityRank (map_score_to_intensity t) := by
  have hmono : ∀ t : ℚ, s ≤ t →
      intensityRank (map_score_to_intensity s) ≤
        intensityRank (map_score_to_intensity t) := by
    intro t hst
    rw [intensityRank_map_score, intensityRank_map_score]
    split_ifs <;> first | omega | linarith
  have e1 : (1 : ℚ) / 2 ≤ s → map_score_to_intensity s = "высокая" := by
    intro h
    rw [map_score_to_intensity, if_pos h]
  have e2 : ¬((1 : ℚ) / 2 ≤ s) → (3 : ℚ) / 10 ≤ s →
      map_score_to_intensity s = "средняя" := by
    intro h h'
    rw [map_score_to_intensity, if_neg h, if_pos h']
  have e3 : ¬((1 : ℚ) / 2 ≤ s) → ¬((3 : ℚ) / 10 ≤ s) →
      map_score_to_intensity s = "низкая" := by
    intro h h'
    rw [map_score_to_intensity, if_neg h, if_neg h']
  rcases le_or_lt ((1 : ℚ) / 2) s with hA | hA
  · rw [e1 hA] at hmono ⊢
    refine ⟨Or.inl rfl, ⟨fun _ => hA, fun _ => rfl⟩, ?_, ?_, hmono⟩
    · exact ⟨fun h => absurd h (by decide), fun hm => absurd hA (not_le.mpr hm.2)⟩
    · exact ⟨fun h => absurd h (by decide),
        fun h3 => absurd (lt_of_le_of_lt hA h3) (by norm_num)⟩
  · rcases le_or_lt ((3 : ℚ) / 10) s with hB | hB
    · rw [e2 (not_le.mpr hA) hB] at hmono ⊢
      refine ⟨Or.inr (Or.inl rfl), ?_, ⟨fun _ => ⟨hB, hA⟩, fun _ => rfl⟩, ?_, hmono⟩
      · exact ⟨fun h => absurd h (by decide), fun h5 => absurd h5 (not_le.mpr hA)⟩
      · exact ⟨fun h => absurd h (by decide), fun h3 => absurd h3 (not_lt.mpr hB)⟩
    · rw [e3 (not_le.mpr hA) (not_le.mpr hB)] at hmono ⊢
      refine ⟨Or.inr (Or.inr rfl), ?_, ?_, ⟨fun _ => hB, fun _ => rfl⟩, hmono⟩
      · exact ⟨fun h => absurd h (by decide), fun h5 => absurd h5 (not_le.mpr hA)⟩
      · exact ⟨fun h => absurd h (by decide), fun hm => absurd hm.1 (not_le.mpr hB)⟩

/-- Witness for C6 at the concrete score `2/5` (middle band). -/
theorem map_score_to_intensity_partition_witness :
    map_score_to_intensity (2 / 5 : ℚ) = "средняя" := by
  have h := map_score_to_intensity_partition (2 / 5) (by norm_num) (by norm_num)
  exact h.2.2.1.mpr (by norm_num)

/-- C2: whenever the lowercased text contains a bad-word keyword, the
support scenario returns its escalation message and the moderator
scenario its hide-and-escalate message, for every label and intensity. -/
theorem bad_word_override (label intensity : String) (text : List Char)
    (h : hasBadWords (pyLower text) = true) :
    support_scenario label intensity text =
      some ("Критичное обращение: клиент использует оскорбления. " ++
        "Рекомендуется максимально вежливый ответ и при необходимости эскалация на старшего специалиста.") ∧
    moderator_scenario label intensity text =
      "Сообщение содержит оскорбления/ненормативную лексику: скрыть из чата и отправить модератору." := by
  constructor
  · rw [support_scenario]
    simp only [h, if_true]
  · rw [moderator_scenario]
    simp only [h, if_true]

/-- Witness for C2 at label `"joy"`, intensity `"низкая"`, text
`"ты дурак"`. -/
theorem bad_word_override_witness :
    support_scenario "joy" "низкая" ("ты дурак".toList) =
      some ("Критичное обращение: клиент использует оскорбления. " ++
        "Рекомендуется максимально вежливый ответ и при необходимости эскалация на старшего специалиста.") ∧
    moderator_scenario "joy" "низкая" ("ты дурак".toList) =
      "Сообщение содержит оскорбления/ненормативную лексику: скрыть из чата и отправить модератору." :=
  bad_word_override "joy" "низкая" ("ты дурак".toList) (by decide)

/-- C3: if the polarity votes total is positive the two percentages are
integers summing to exactly 100; if the total is zero the result is
exactly `(0, 0)`. -/
theorem polarity_sum_invariant (label : String) (text : List Char) :
    (0 < (polarityVotes label text).1 + (polarityVotes label text).2 →
      (polarity_with_lexicon label text).1 +
        (polarity_with_lexicon label text).2 = 100) ∧
    ((polarityVotes label text).1 + (polarityVotes label text).2 = 0 →
      polarity_with_lexicon label text = (0, 0)) := by
  unfold polarity_with_lexicon
  constructor
  · intro h
    rw [if_neg (by omega)]
    simp only
    omega
  · intro h
    rw [if_pos h]

/-- Witness for C3: nonzero votes at `("joy", "спасибо")`, zero votes at
`("neutral", "")`. -/
theorem polarity_sum_invariant_witness :
    (polarity_with_lexicon "joy" ("спасибо".toList)).1 +
      (polarity_with_lexicon "joy" ("спасибо".toList)).2 = 100 ∧
    polarity_with_lexicon "neutral" [] = (0, 0) :=
  ⟨(polarity_sum_invariant "joy" ("спасибо".toList)).1 (by decide),
   (polarity_sum_invariant "neutral" []).2 (by decide)⟩

/-- C4: the polarity votes are: 3 positive votes if the label is in the
positive-label set, else 3 negative votes if it is in the negative-label
set (0 otherwise); plus 2 positive votes per distinct positive-tone
keyword occurring as a substring of the lowercased text and 1 negative
vote per distinct negative-tone keyword. -/
theorem polarity_vote_weighting (label : String) (text : List Char) :
    polarityVotes label text =
      ((if label ∈ positive_labels then 3 else 0) +
        2 * positive_tone_words.countP (fun w => occursIn w (pyLower text)),
       (if label ∉ positive_labels ∧ label ∈ negative_labels then 3 else 0) +
        negative_tone_words.countP (fun w => occursIn w (pyLower text))) := by
  unfold polarityVotes
  by_cases hp : label ∈ positive_labels <;> by_cases hn : label ∈ negative_labels <;>
    simp [List.contains, List.elem_iff, hp, hn]

/-- C5 counterexample: `"disgust"` is a machine label of the classifier's
taxonomy (a key of `EMOTION_RU`) that the spec's "anger/disgust-style"
description covers, yet at high intensity and insult-free text the
moderator scenario returns the default allow message, not the
hide-and-flag message: lowercase `"disgust"` is missing from the code's
`toxic_emotions` set. -/
theorem moderator_toxic_counterexample :
    "disgust" ∈ EMOTION_RU.map Prod.fst ∧
    ¬ "disgust" ∈ toxic_emotions ∧
    moderator_scenario "disgust" "высокая" [] =
      "Сообщение допустимо: оставить в чате." ∧
    moderator_scenario "disgust" "высокая" [] ≠
      "Сообщение потенциально токсично: скрыть из чата и отправить на проверку модератору." := by
  refine ⟨by decide, by decide, by decide, by decide⟩

/-- C5 (amended): for every label in the code's `toxic_emotions` set
(`"ANGER"`, `"DISGUST"`, `"IRRITATION"`, `"ANGER/hostility"`, `"anger"` —
lowercase `"disgust"` is not a member), medium or high intensity and
insult-free text give the hide-and-flag message, and low intensity the
spot-check message. -/
theorem moderator_toxic_branch (label intensity : String) (text : List Char)
    (hl : label ∈ toxic_emotions)
    (hb : hasBadWords (pyLower text) = false) :
    ((intensity = "средняя" ∨ intensity = "высокая") →
      moderator_scenario label intensity text =
        "Сообщение потенциально токсично: скрыть из чата и отправить на проверку модератору.") ∧
    (intensity = "низкая" →
      moderator_scenario label intensity text =
        "Сообщение может содержать негатив: отметить для выборочной проверки.") := by
  have hl' : toxic_emotions.contains label = true := List.elem_iff.mpr hl
  constructor
  · intro hi
    rw [moderator_scenario]
    simp only [hb, Bool.false_eq_true, if_false, hl', Bool.true_and]
    rcases hi with hi | hi <;> rw [hi] <;> simp
  · intro hi
    rw [hi, moderator_scenario]
    simp only [hb, Bool.false_eq_true, if_false, hl', Bool.true_and]
    simp

/-- Witness for C5 (amended) at label `"anger"`, empty text, intensities
`"высокая"` and `"низкая"`. -/
theorem moderator_toxic_branch_witness :
    moderator_scenario "anger" "высокая" [] =
      "Сообщение потенциально токсично: скрыть из чата и отправить на проверку модератору." ∧
    moderator_scenario "anger" "низкая" [] =
      "Сообщение может содержать негатив: отметить для выборочной проверки." :=
  ⟨(moderator_toxic_branch "anger" "высокая" [] (by decide) (by decide)).1
      (Or.inr rfl),
   (moderator_toxic_branch "anger" "низкая" [] (by decide) (by decide)).2 rfl⟩

/-- C1 (code evaluated at the failing input): with the classifier
returning label `"neutral"` (score `9/10`) on the insult-free text
`"привет"`, `support_scenario` falls through every branch and returns
Python `None`, so constructing the pydantic `ScenarioResult` — and with
it the whole `analyze_text` result — fails, although the classifier
succeeded. -/
theorem analyze_text_neutral_fails :
    support_scenario "neutral" (map_score_to_intensity (9 / 10))
        (preprocess ("привет".toList)) = none ∧
    analyze_text ("привет".toList) "neutral" (9 / 10) = none := by
  constructor
  · rw [show map_score_to_intensity (9 / 10 : ℚ) = "высокая" from by
      rw [map_score_to_intensity, if_pos (by norm_num)]]
    decide
  · decide

/-- One `add` keeps the length at `min (length + 1) capacity` when the
store is within capacity. -/
theorem history_add_length {α : Type} (C : Nat) (x : α) (s : List α)
    (h : s.length ≤ C) :
    (HistoryRepository.add C x s).length = min (s.length + 1) C := by
  rw [HistoryRepository.add]
  simp only [List.length_cons]
  by_cases hgt : s.length + 1 > C
  · rw [if_pos hgt, List.length_dropLast, List.length_cons]
    omega
  · rw [if_neg hgt, List.length_cons]
    omega

/-- Folding `add` over a list of entries caps the length at the
capacity. -/
theorem history_addAll_length {α : Type} (C : Nat) :
    ∀ (entries : List α) (s : List α), s.length ≤ C →
      (HistoryRepository.addAll C entries s).length =
        min (s.length + entries.length) C := by
  intro entries
  induction entries with
  | nil =>
    intro s h
    simp [HistoryRepository.addAll]
    omega
  | cons x es ih =>
    intro s h
    have h1 := history_add_length C x s h
    have h2 : (HistoryRepository.add C x s).length ≤ C := by omega
    have h3 := ih (HistoryRepository.add C x s) h2
    have : HistoryRepository.addAll C (x :: es) s =
        HistoryRepository.addAll C es (HistoryRepository.add C x s) := rfl
    rw [this, h3, h1, List.length_cons]
    omega

/-- With positive capacity, the entry just added is at the front. -/
theorem history_add_head {α : Type} (C : Nat) (hC : 0 < C) (x : α)
    (s : List α) : (HistoryRepository.add C x s).head? = some x := by
  rw [HistoryRepository.add]
  by_cases hgt : (x :: s).length > C
  · rw [if_pos hgt]
    have hs : s ≠ [] := by
      intro he
      rw [he] at hgt
      simp at hgt
      omega
    rw [List.dropLast_cons_of_ne_nil hs]
    rfl
  · rw [if_neg hgt]
    rfl

/-- After a nonempty sequence of adds, the front entry is the last one
added. -/
theorem history_addAll_head {α : Type} (C : Nat) (hC : 0 < C) :
    ∀ (entries : List α) (s : List α), entries ≠ [] →
      (HistoryRepository.addAll C entries s).head? = entries.getLast? := by
  intro entries
  induction entries with
  | nil => intro s h; exact absurd rfl h
  | cons x es ih =>
    intro s _
    have hstep : HistoryRepository.addAll C (x :: es) s =
        HistoryRepository.addAll C es (HistoryRepository.add C x s) := rfl
    by_cases hes : es = []
    · rw [hstep, hes]
      rw [show HistoryRepository.addAll C [] (HistoryRepository.add C x s) =
        HistoryRepository.add C x s from rfl]
      rw [history_add_head C hC x s]
      rfl
    · rw [hstep, ih _ hes, getLast?_cons_of_ne_nil x es hes]

/-- C9: the history store never exceeds its capacity `C > 0` under any
sequence of `add` operations from the empty store; once more than `C`
entries have been added, the size is exactly `C` and the first element of
the listed snapshot is the most recently added entry. -/
theorem history_bound {α : Type} (C : Nat) (hC : 0 < C) (entries : List α) :
    HistoryRepository.size (HistoryRepository.addAll C entries []) ≤ C ∧
    (C < entries.length →
      HistoryRepository.size (HistoryRepository.addAll C entries []) = C ∧
      (HistoryRepository.listItems
          (HistoryRepository.addAll C entries [])).head? = entries.getLast?) := by
  have hlen := history_addAll_length C entries [] (by simp)
  rw [List.length_nil, Nat.zero_add] at hlen
  constructor
  · rw [HistoryRepository.size, hlen]
    omega
  · intro hgt
    refine ⟨by rw [HistoryRepository.size, hlen]; omega, ?_⟩
    rw [HistoryRepository.listItems]
    exact history_addAll_head C hC entries []
      (by intro he; rw [he] at hgt; simp at hgt)

/-- Witness for C9: capacity 2, entries `[1, 2, 3]` — the store holds two
entries and `3` is at the front. -/
theorem history_bound_witness :
    HistoryRepository.size (HistoryRepository.addAll 2 [1, 2, 3] ([] : List ℕ)) = 2 ∧
    (HistoryRepository.listItems
        (HistoryRepository.addAll 2 [1, 2, 3] ([] : List ℕ))).head? = some 3 := by
  have h := (history_bound 2 (by decide) [1, 2, 3]).2 (by decide)
  exact ⟨h.1, by rw [h.2]; decide⟩

/-- Rounding zero to three decimal places gives zero. -/
theorem pyRound3_zero : pyRound3 0 = 0 := by
  norm_num [pyRound3, pyRound]

/-- C10 counterexample: the input `"ℂ"` (U+2102, an uppercase alphabetic
character that `lower()` leaves unchanged) survives normalization
unchanged, so the features of a successful end-to-end analysis report
`caps_ratio = 1`, not `0`. -/
theorem analyze_caps_ratio_counterexample :
    (analyze_text ("ℂ".toList) "joy" (9 / 10)).map
      (fun r => r.features.caps_ratio) = some 1 ∧ (1 : ℚ) ≠ 0 := by
  constructor
  · have hclean : preprocess ("ℂ".toList) = "ℂ".toList := by decide
    have hsup : (build_scenarios_single "joy" (map_score_to_intensity (9 / 10))
        (preprocess ("ℂ".toList))).for_support =
        some "Положительное обращение: можно усилить позитивное впечатление и поблагодарить клиента." := by
      rw [hclean,
        show map_score_to_intensity (9 / 10 : ℚ) = "высокая" from by
          rw [map_score_to_intensity, if_pos (by norm_num)]]
      decide
    rw [analyze_text]
    rw [hsup]
    have h1 : ("ℂ".toList.countP (fun ch => pyIsAlpha ch && pyIsUpper ch)) = 1 := by
      decide
    have h2 : ("ℂ".toList.countP (fun ch => pyIsAlpha ch)) = 1 := by decide
    simp only [Option.map_some, Option.some.injEq]
    rw [hclean, extract_features]
    simp only [h1, h2]
    norm_num [pyRound3, pyRound]

  · norm_num

/-- C10 (amended): the features reported by a successful end-to-end
analysis have `caps_ratio = 0` whenever no character of the raw input
stays uppercase after lowercasing — so for every input over characters
with a lowercase mapping (all ASCII/Cyrillic text) the claim holds, but
uppercase characters without a lowercase mapping (e.g. U+2102) survive
normalization and are counted. -/
theorem analyze_caps_ratio_zero (raw : List Char)
    (h : ∀ c ∈ raw, pyIsUpper (pyToLower c) = false) :
    ∀ (label : String) (score : ℚ), ∀ r ∈ analyze_text raw label score,
      r.features.caps_ratio = 0 := by
  intro label score r hr
  have hfeat : r.features = extract_features (preprocess raw) := by
    rw [analyze_text] at hr
    rcases hs : (build_scenarios_single label (map_score_to_intensity score)
        (preprocess raw)).for_support with _ | sup
    · rw [hs] at hr
      simp at hr
    · rw [hs] at hr
      simp only [Option.mem_def, Option.some.injEq] at hr
      rw [← hr]
  rw [hfeat]
  have hcaps : (preprocess raw).countP (fun ch => pyIsAlpha ch && pyIsUpper ch) = 0 := by
    rw [List.countP_eq_zero]
    intro a ha
    rw [preprocess, to_lower, pyLower] at ha
    rcases List.mem_map.mp ha with ⟨c, hc, hac⟩
    rcases mem_normalize_text raw c hc with hsp | hmem
    · rw [← hac, hsp]
      decide
    · rw [← hac]
      simp [h c hmem]
  rw [extract_features]
  simp only [hcaps]
  by_cases hl : (preprocess raw).countP (fun ch => pyIsAlpha ch) > 0
  · rw [if_pos hl]
    rw [Nat.cast_zero, zero_div]
    exact pyRound3_zero
  · rw [if_neg hl]
    exact pyRound3_zero

/-- Witness for C10 (amended) on the Cyrillic/ASCII input
`"Привет МИР!"`, label `"joy"`, score `9/10`. -/
theorem analyze_caps_ratio_zero_witness :
    (analyze_text ("Привет МИР!".toList) "joy" (9 / 10)).map
      (fun r => r.features.caps_ratio) = some 0 := by
  have key := analyze_caps_ratio_zero ("Привет МИР!".toList) (by decide) "joy" (9 / 10)
  rcases ho : analyze_text ("Привет МИР!".toList) "joy" (9 / 10) with _ | r
  · exact absurd ho (by decide)
  · simp only [Option.map_some']
    rw [key r (by rw [ho]; rfl)]

end EmoApp
